import Mathlib

/-!
Shallow embedding of the natural-language-to-SQL agent backend
(`backend.py`): the agent state record, the five workflow steps, the two
routing functions, and the compiled LangGraph workflow as a fuel-bounded
state machine.  Python strings are modelled as Lean `String`s (lists of
characters); fallible dictionary lookups (`state['key']`) are modelled
with `Except`; partial state updates (TypedDict fragments returned by the
nodes) are records of `Option` fields merged into the running state.
-/

set_option maxRecDepth 4000

namespace NLSQL

/-! ## Python string primitives -/

/-- Word character in the sense of Python regex `\w` (ASCII range):
letters, digits, underscore. -/
def wordChar (c : Char) : Bool := c.isAlphanum || c == '_'

/-- Python `str.upper()` restricted to its ASCII behaviour. -/
def pyUpper (s : String) : String := ⟨s.data.map Char.toUpper⟩

/-- Python whitespace characters stripped by `str.strip()` (ASCII range). -/
def pyIsSpace (c : Char) : Bool :=
  c == ' ' || c == '\t' || c == '\n' || c == '\r' || c == Char.ofNat 11 || c == Char.ofNat 12

/-- Python `str.strip()`: remove leading and trailing whitespace. -/
def pyStrip (s : String) : String :=
  ⟨((s.data.dropWhile pyIsSpace).reverse.dropWhile pyIsSpace).reverse⟩

/-- `beginsWith pat s` is true when `pat` is an initial segment of `s`. -/
def beginsWith : List Char → List Char → Bool
  | [], _ => true
  | _ :: _, [] => false
  | a :: ps, b :: ss => a == b && beginsWith ps ss

/-- `hasSeg pat s` is true when `pat` occurs contiguously inside `s`. -/
def hasSeg (pat : List Char) : List Char → Bool
  | [] => beginsWith pat []
  | c :: rest => beginsWith pat (c :: rest) || hasSeg pat rest

/-- One pass of Python `str.replace(pat, "")`: delete the leftmost
non-overlapping occurrences of `pat`, scanning left to right.  The `Nat`
argument is structural fuel; `s.length` is always enough because every
step consumes at least one character. -/
def pyRemoveAux (pat : List Char) : Nat → List Char → List Char
  | _, [] => []
  | 0, s => s
  | fuel + 1, c :: rest =>
    if beginsWith pat (c :: rest) && !pat.isEmpty then
      pyRemoveAux pat fuel ((c :: rest).drop pat.length)
    else
      c :: pyRemoveAux pat fuel rest

/-- List-level form of Python `s.replace(pat, "")`: the fuel `s.length`
always suffices. -/
def remDel (pat s : List Char) : List Char := pyRemoveAux pat s.length s

/-- Python `s.replace(pat, "")` for a non-empty pattern. -/
def pyRemove (pat s : String) : String := ⟨remDel pat.data s.data⟩

/-- The characters of a markdown code-fence marker. -/
def fenceChars : List Char := "```".data

/-- The number of leading backticks of a character list. -/
def leadTicks : List Char → Nat
  | [] => 0
  | c :: r => if c = '`' then leadTicks r + 1 else 0

/-! ## Regex word search: `re.search(r'\b' + kw + r'\b', s)` -/

/-- A `\b` boundary holds before the match when there is no previous
character or the previous character is not a word character. -/
def boundaryBefore : Option Char → Bool
  | none => true
  | some c => !wordChar c

/-- A `\b` boundary holds after the match when the remainder is empty or
starts with a non-word character. -/
def boundaryAfter : List Char → Bool
  | [] => true
  | c :: _ => !wordChar c

/-- The pattern `\b kw \b` matches at the current position, whose previous
character (if any) is `prev`. -/
def matchAt (kw : List Char) (prev : Option Char) (s : List Char) : Bool :=
  boundaryBefore prev && beginsWith kw s && boundaryAfter (s.drop kw.length)

/-- Scan every position of `s` for a `\b kw \b` match, tracking the
character preceding the current position. -/
def searchTokenAux (kw : List Char) : Option Char → List Char → Bool
  | prev, [] => matchAt kw prev []
  | prev, c :: rest => matchAt kw prev (c :: rest) || searchTokenAux kw (some c) rest

/-- Model of Python `re.search(r'\b' + kw + r'\b', s) is not None` for a
keyword consisting of word characters. -/
def reSearchWord (kw s : String) : Bool := searchTokenAux kw.data none s.data

/-- The last element of the list, or `prev` when the list is empty. -/
def lastOr (prev : Option Char) : List Char → Option Char
  | [] => prev
  | c :: r => lastOr (some c) r

/-! ## Agent state -/

/-- The `AgentState` TypedDict.  Each field is `Option`al because at
runtime a LangGraph state dictionary only holds the keys that some node
(or the initial input) has written; `none` models an absent key.  The
same record type serves as the partial updates the nodes return. -/
structure AgentState where
  question : Option String := none
  schema : Option String := none
  sql_query : Option String := none
  sql_safe : Option Bool := none
  result : Option String := none
  error : Option String := none
  retry_count : Option Nat := none
deriving DecidableEq

/-- A Python exception raised by a step: dictionary lookup failure. -/
inductive PyErr
  | keyError (key : String)
deriving DecidableEq

/-- In a merge, a field of the update overrides the running state exactly
when the node wrote it. -/
def mergeField : Option α → Option α → Option α
  | some v, _ => some v
  | none, old => old

/-- LangGraph channel merge: each field returned by a node replaces the
running state's value for that key; all other keys are kept. -/
def applyUpdate (st u : AgentState) : AgentState :=
  ⟨mergeField u.question st.question,
   mergeField u.schema st.schema,
   mergeField u.sql_query st.sql_query,
   mergeField u.sql_safe st.sql_safe,
   mergeField u.result st.result,
   mergeField u.error st.error,
   mergeField u.retry_count st.retry_count⟩

/-! ## Database model -/

/-- One column of `PRAGMA table_info`: (name, declared type). -/
abbrev Column := String × String

/-- One table of the store: (table name, columns). -/
abbrev TableInfo := String × List Column

/-- A value in a result row.  Models the Python values the sqlite3 driver
returns for the claims at hand (integers, text, NULL). -/
inductive SQLValue
  | intV (i : Int)
  | textV (s : String)
  | nullV
deriving DecidableEq

/-- A result row: a Python tuple of driver values. -/
abbrev Row := List SQLValue

/-- Python `repr` of a driver value (plain text without escapes). -/
def pyReprValue : SQLValue → String
  | .intV i => toString i
  | .textV s => "'" ++ s ++ "'"
  | .nullV => "None"

/-- Python `repr` of a tuple, with the one-element trailing comma. -/
def pyReprTuple : Row → String
  | [v] => "(" ++ pyReprValue v ++ ",)"
  | vs => "(" ++ String.intercalate ", " (vs.map pyReprValue) ++ ")"

/-- Python `str(rows)` for the fetched list of tuples. -/
def pyStrRows (rows : List Row) : String :=
  "[" ++ String.intercalate ", " (rows.map pyReprTuple) ++ "]"

/-- Outcome of running one statement against the store: either the fetched
rows or a `sqlite3.Error` with its message. -/
inductive ExecOutcome
  | rows (rs : List Row)
  | failure (msg : String)

/-! ## The agent's workflow steps (`class SQLAgent`) -/

/-- The rendering of one table in `fetch_schema`:
`f"Table '{table_name}': {', '.join(col_names)}\n"` with
`col_names = [f"{col[1]} ({col[2]})" for col in columns]`. -/
def schemaLine (t : TableInfo) : String :=
  "Table '" ++ t.1 ++ "': " ++
    String.intercalate ", " (t.2.map (fun c => c.1 ++ " (" ++ c.2 ++ ")")) ++ "\n"

/-- The `schema_str` accumulation loop of `fetch_schema`. -/
def schemaString (tables : List TableInfo) : String :=
  tables.foldl (fun acc t => acc ++ schemaLine t) ""

/-- `SQLAgent.fetch_schema`: reads the store metadata and returns the
update `{"schema": schema_str}`. -/
def fetch_schema (tables : List TableInfo) (_st : AgentState) : AgentState :=
  { schema := some (schemaString tables) }

/-- The prompt f-string built by `SQLAgent.write_sql`. -/
def writeSqlPrompt (schema question error : String) : String :=
  "\n        You are an expert SQLite Data Analyst.\n        Schema:\n        "
    ++ schema
    ++ "\n        \n        Question: \"" ++ question
    ++ "\"\n        \n        Instructions:\n        1. Return ONLY the raw SQL code. \n        2. Do not use markdown blocks (```sql).\n        3. If previous error: \""
    ++ error ++ "\", fix it.\n        "

/-- The post-processing of the model output in `write_sql`:
`response.content.strip().replace("```sql", "").replace("```", "")`. -/
def cleanModelSQL (content : String) : String :=
  pyRemove "```" (pyRemove "```sql" (pyStrip content))

/-- `SQLAgent.write_sql`: builds the prompt (reading `schema`, `question`
and `error` by direct subscript, so an absent key raises), invokes the
model, cleans the output, and returns the new statement together with
`state.get("retry_count", 0) + 1`. -/
def write_sql (invoke : String → String) (st : AgentState) : Except PyErr AgentState :=
  match st.schema with
  | none => .error (.keyError "schema")
  | some schema =>
    match st.question with
    | none => .error (.keyError "question")
    | some question =>
      match st.error with
      | none => .error (.keyError "error")
      | some error =>
        let content := invoke (writeSqlPrompt schema question error)
        .ok { sql_query := some (cleanModelSQL content),
              retry_count := some (st.retry_count.getD 0 + 1) }

/-- The fixed scan list of `check_security`. -/
def forbidden : List String := ["DROP", "DELETE", "TRUNCATE", "INSERT", "UPDATE", "ALTER"]

/-- The scan loop of `check_security` over the uppercased query. -/
def forbiddenScan (query : String) : List String → AgentState
  | [] => { sql_safe := some true, error := some "" }
  | w :: ws =>
    if reSearchWord w query then
      { sql_safe := some false,
        error := some ("Forbidden keyword '" ++ w ++ "' detected.") }
    else forbiddenScan query ws

/-- `SQLAgent.check_security`: uppercases `state['sql_query']` and scans
it for the forbidden keywords with `\b`-delimited regex search. -/
def check_security (st : AgentState) : Except PyErr AgentState :=
  match st.sql_query with
  | none => .error (.keyError "sql_query")
  | some q => .ok (forbiddenScan (pyUpper q) forbidden)

/-- `SQLAgent.execute_sql`: runs `state['sql_query']` against the store;
empty row list gives the literal `No data found.`, rows give `str(rows)`,
and a `sqlite3.Error` gives an empty result and the error message. -/
def execute_sql (runQuery : String → ExecOutcome) (st : AgentState) : Except PyErr AgentState :=
  match st.sql_query with
  | none => .error (.keyError "sql_query")
  | some q =>
    match runQuery q with
    | .rows rs =>
      if rs.isEmpty then .ok { result := some "No data found.", error := some "" }
      else .ok { result := some (pyStrRows rs), error := some "" }
    | .failure m => .ok { result := some "", error := some m }

/-- The prompt f-string built by `SQLAgent.summarize_result` (all fields
are read with `state.get`, with `'N/A'` as the default for `result`). -/
def summaryPrompt (question sql_query result error : String) : String :=
  "\n        User Question: " ++ question
    ++ "\n        SQL Used: " ++ sql_query
    ++ "\n        Data Found: " ++ result
    ++ "\n        Error: " ++ error
    ++ "\n        \n        Provide a professional, concise answer.\n        "

/-- `SQLAgent.summarize_result`: invokes the model on the summary prompt
and returns only `{"result": response.content}`. -/
def summarize_result (invoke : String → String) (st : AgentState) : AgentState :=
  { result := some (invoke (summaryPrompt (st.question.getD "") (st.sql_query.getD "")
      (st.result.getD "N/A") (st.error.getD ""))) }

/-- `SQLAgent.route_after_security`:
`"execute" if state['sql_safe'] else "summarize"`. -/
def route_after_security (st : AgentState) : Except PyErr String :=
  match st.sql_safe with
  | none => .error (.keyError "sql_safe")
  | some b => .ok (if b then "execute" else "summarize")

/-- `SQLAgent.route_after_execute`:
`"retry" if state['error'] and state['retry_count'] < 3 else "summarize"`.
The Python `and` short-circuits, so `retry_count` is only read when the
error string is truthy (non-empty). -/
def route_after_execute (st : AgentState) : Except PyErr String :=
  match st.error with
  | none => .error (.keyError "error")
  | some e =>
    if e ≠ "" then
      match st.retry_count with
      | none => .error (.keyError "retry_count")
      | some rc => .ok (if rc < 3 then "retry" else "summarize")
    else .ok "summarize"

/-! ## The compiled workflow (`SQLAgent.get_workflow`) -/

/-- The nodes of the LangGraph graph. -/
inductive Node
  | fetch_schema
  | writer
  | guardian
  | executor
  | summarizer
deriving DecidableEq

/-- The environment of one run: the store metadata, the language model
(indexed by how many model calls happened so far, so the oracle may answer
differently on every call), and the statement executor (indexed likewise). -/
structure Env where
  tables : List TableInfo
  llm : Nat → String → String
  db : Nat → String → ExecOutcome

/-- The running accumulator: the merged state, the trace of executed nodes
paired with the state right after each node's update was merged, and the
number of model and store calls made so far. -/
structure RunAcc where
  state : AgentState
  trace : List (Node × AgentState)
  llmCalls : Nat
  dbCalls : Nat

/-- A run failure: a Python exception inside a step, or LangGraph's
recursion limit. -/
inductive RunErr
  | stepErr (e : PyErr)
  | recursionLimit
deriving DecidableEq

/-- One super-step of the compiled graph: run the node, merge its update,
and evaluate the (conditional) edge out of it; `none` means `END`. -/
def stepNode (env : Env) (acc : RunAcc) : Node → Except PyErr (RunAcc × Option Node)
  | .fetch_schema =>
    let st := applyUpdate acc.state (fetch_schema env.tables acc.state)
    .ok (⟨st, acc.trace ++ [(.fetch_schema, st)], acc.llmCalls, acc.dbCalls⟩, some .writer)
  | .writer =>
    match write_sql (env.llm acc.llmCalls) acc.state with
    | .error e => .error e
    | .ok u =>
      let st := applyUpdate acc.state u
      .ok (⟨st, acc.trace ++ [(.writer, st)], acc.llmCalls + 1, acc.dbCalls⟩, some .guardian)
  | .guardian =>
    match check_security acc.state with
    | .error e => .error e
    | .ok u =>
      let st := applyUpdate acc.state u
      match route_after_security st with
      | .error e => .error e
      | .ok r =>
        let next : Node := if r = "execute" then .executor else .summarizer
        .ok (⟨st, acc.trace ++ [(.guardian, st)], acc.llmCalls, acc.dbCalls⟩, some next)
  | .executor =>
    match execute_sql (env.db acc.dbCalls) acc.state with
    | .error e => .error e
    | .ok u =>
      let st := applyUpdate acc.state u
      match route_after_execute st with
      | .error e => .error e
      | .ok r =>
        let next : Node := if r = "retry" then .writer else .summarizer
        .ok (⟨st, acc.trace ++ [(.executor, st)], acc.llmCalls, acc.dbCalls + 1⟩, some next)
  | .summarizer =>
    let st := applyUpdate acc.state (summarize_result (env.llm acc.llmCalls) acc.state)
    .ok (⟨st, acc.trace ++ [(.summarizer, st)], acc.llmCalls + 1, acc.dbCalls⟩, none)

/-- Drive the graph until `END`, a raised exception, or fuel exhaustion
(LangGraph's recursion limit). -/
def runLoop (env : Env) : Nat → RunAcc → Node → Except RunErr RunAcc
  | 0, _, _ => .error .recursionLimit
  | fuel + 1, acc, n =>
    match stepNode env acc n with
    | .error e => .error (.stepErr e)
    | .ok (acc2, some next) => runLoop env fuel acc2 next
    | .ok (acc2, none) => .ok acc2

/-- The initial state the caller supplies:
`{"question": user_query, "retry_count": 0, "error": ""}`. -/
def initState (question : String) : AgentState :=
  { question := some question, error := some "", retry_count := some 0 }

/-- One full run of the compiled workflow from the entry point, under
LangGraph's default recursion limit of 25 super-steps. -/
def runWorkflow (env : Env) (question : String) : Except RunErr RunAcc :=
  runLoop env 25 ⟨initState question, [], 0, 0⟩ .fetch_schema

/-! ## Specification-side definitions

These follow the words of the spec, to be compared with the embedded code. -/

/-- The spec's notion of containing a keyword as a standalone word token:
`kw` occurs contiguously in `s`, the character immediately before the
occurrence (if any) is not a word character, and the character immediately
after it (if any) is not a word character. -/
def ContainsWordToken (kw s : String) : Prop :=
  ∃ pre post, s.data = pre ++ kw.data ++ post ∧
    (pre = [] ∨ ∃ c, pre.getLast? = some c ∧ wordChar c = false) ∧
    (post = [] ∨ ∃ c, post.head? = some c ∧ wordChar c = false)

/-- The error text the spec prescribes for a blocked keyword. -/
def forbiddenMessage (w : String) : String :=
  "Forbidden keyword '" ++ w ++ "' detected."

/-- `w` is the first keyword of the scan order that occurs as a standalone
word token in the uppercased statement `u`. -/
def FirstForbiddenToken (u w : String) : Prop :=
  ∃ l₁ l₂, forbidden = l₁ ++ w :: l₂ ∧ ContainsWordToken w u ∧
    ∀ w' ∈ l₁, ¬ ContainsWordToken w' u

/-- Modelled from the spec: the QueryExecutor contract. On success with
zero rows the literal `No data found.` and an explicitly empty error; on
success with rows a textual rendering of the row set and an explicitly
empty error; on failure a present-and-empty result and the underlying
failure description as the error. -/
def execSpecUpdate : ExecOutcome → AgentState
  | .rows [] => { result := some "No data found.", error := some "" }
  | .rows rs => { result := some (pyStrRows rs), error := some "" }
  | .failure m => { result := some "", error := some m }

/-- Modelled from the spec: one schema line per table, of the form
`Table '<name>': <col1> (<type1>), <col2> (<type2>), ...`. -/
def schemaLineSpec (t : TableInfo) : String :=
  "Table '" ++ t.1 ++ "': " ++
    String.intercalate ", " (t.2.map (fun c => c.1 ++ " (" ++ c.2 ++ ")")) ++ "\n"

/-- Modelled from the spec: the whole schema text is the concatenation of
the per-table lines, the empty string when the store has no tables. -/
def schemaSpec (tables : List TableInfo) : String :=
  String.join (tables.map schemaLineSpec)

/-- Retry counter of a state, defaulting to 0 when the key is absent. -/
def rcOf (st : AgentState) : Nat := st.retry_count.getD 0

/-- Adjacency condition on a trace: any `executor` entry immediately
follows a `guardian` entry whose merged state has `sql_safe = true`. -/
def execAfterSafeGuard (a b : Node × AgentState) : Prop :=
  b.1 = Node.executor → a.1 = Node.guardian ∧ a.2.sql_safe = some true

/-- Count the entries of a trace at a given node. -/
def countNode (n : Node) (tr : List (Node × AgentState)) : Nat :=
  (tr.filter (fun e => e.1 = n)).length

/-! ## Lemmas: the `\b kw \b` search -/

theorem beginsWith_iff (p s : List Char) : beginsWith p s = true ↔ ∃ t, s = p ++ t := by
  induction p generalizing s with
  | nil => simp [beginsWith]
  | cons a ps ih =>
    cases s with
    | nil => simp [beginsWith]
    | cons b ss =>
      simp only [beginsWith, Bool.and_eq_true, beq_iff_eq, ih, List.cons_append,
        List.cons.injEq]
      constructor
      · rintro ⟨rfl, t, rfl⟩; exact ⟨t, rfl, rfl⟩
      · rintro ⟨t, rfl, rfl⟩; exact ⟨rfl, t, rfl⟩

theorem beginsWith_self_append (p t : List Char) : beginsWith p (p ++ t) = true :=
  (beginsWith_iff p (p ++ t)).2 ⟨t, rfl⟩

theorem searchTokenAux_iff (kw : List Char) (hkw : kw ≠ []) :
    ∀ (s : List Char) (prev : Option Char),
      searchTokenAux kw prev s = true ↔
        ∃ pre post, s = pre ++ kw ++ post ∧
          boundaryBefore (lastOr prev pre) = true ∧ boundaryAfter post = true := by
  intro s
  induction s with
  | nil =>
    intro prev
    simp only [searchTokenAux, matchAt]
    constructor
    · intro h
      rcases kw with _ | ⟨a, ps⟩
      · exact absurd rfl hkw
      · simp [beginsWith] at h
    · rintro ⟨pre, post, hsplit, -, -⟩
      have hl := congrArg List.length hsplit
      simp only [List.length_nil, List.length_append] at hl
      exact absurd (List.eq_nil_of_length_eq_zero (by omega)) hkw
  | cons c rest ih =>
    intro prev
    simp only [searchTokenAux, Bool.or_eq_true]
    constructor
    · rintro (hm | hs)
      · simp only [matchAt, Bool.and_eq_true] at hm
        obtain ⟨⟨hb, hp⟩, ha⟩ := hm
        obtain ⟨t, ht⟩ := (beginsWith_iff _ _).1 hp
        refine ⟨[], t, by simpa using ht, ?_, ?_⟩
        · simpa [lastOr] using hb
        · rw [ht, List.drop_left] at ha; exact ha
      · obtain ⟨pre, post, hsplit, hb, ha⟩ := (ih (some c)).1 hs
        exact ⟨c :: pre, post, by simp [hsplit], hb, ha⟩
    · rintro ⟨pre, post, hsplit, hb, ha⟩
      cases pre with
      | nil =>
        left
        simp only [List.nil_append] at hsplit
        simp only [matchAt, Bool.and_eq_true]
        refine ⟨⟨by simpa [lastOr] using hb, ?_⟩, ?_⟩
        · rw [hsplit]; exact beginsWith_self_append kw post
        · rw [hsplit, List.drop_left]; exact ha
      | cons c' pre' =>
        right
        simp only [List.cons_append, List.cons.injEq] at hsplit
        obtain ⟨rfl, hrest⟩ := hsplit
        exact (ih (some c)).2 ⟨pre', post, hrest, hb, ha⟩

theorem lastOr_eq_getLast? (l : List Char) (prev : Option Char) :
    lastOr prev l = match l.getLast? with | some c => some c | none => prev := by
  induction l generalizing prev with
  | nil => simp [lastOr]
  | cons c r ih =>
    cases r with
    | nil => simp [lastOr, List.getLast?]
    | cons d r' =>
      rw [lastOr, ih, List.getLast?_cons_cons]
      cases h : (d :: r').getLast? with
      | none => exact absurd (List.getLast?_eq_none_iff.mp h) (by simp)
      | some e => rfl

theorem boundaryBefore_lastOr_none (pre : List Char) :
    boundaryBefore (lastOr none pre) = true ↔
      (pre = [] ∨ ∃ c, pre.getLast? = some c ∧ wordChar c = false) := by
  rw [lastOr_eq_getLast?]
  cases h : pre.getLast? with
  | none =>
    simp only [boundaryBefore]
    simp [List.getLast?_eq_none_iff.mp h]
  | some c =>
    have : pre ≠ [] := by rintro rfl; simp [List.getLast?] at h
    simp [boundaryBefore, this, h]

theorem boundaryAfter_iff (post : List Char) :
    boundaryAfter post = true ↔
      (post = [] ∨ ∃ c, post.head? = some c ∧ wordChar c = false) := by
  cases post with
  | nil => simp [boundaryAfter]
  | cons c r => simp [boundaryAfter]

theorem reSearchWord_iff (kw s : String) (hkw : kw.data ≠ []) :
    reSearchWord kw s = true ↔ ContainsWordToken kw s := by
  unfold reSearchWord ContainsWordToken
  rw [searchTokenAux_iff kw.data hkw s.data none]
  constructor
  · rintro ⟨pre, post, hsplit, hb, ha⟩
    exact ⟨pre, post, hsplit, (boundaryBefore_lastOr_none pre).1 hb,
      (boundaryAfter_iff post).1 ha⟩
  · rintro ⟨pre, post, hsplit, hb, ha⟩
    exact ⟨pre, post, hsplit, (boundaryBefore_lastOr_none pre).2 hb,
      (boundaryAfter_iff post).2 ha⟩

/-! ## Lemmas: the security gate -/

theorem forbiddenMessage_inj {w w' : String}
    (h : forbiddenMessage w = forbiddenMessage w') : w = w' := by
  unfold forbiddenMessage at h
  have hd := congrArg String.data h
  simp only [String.data_append] at hd
  exact String.ext (List.append_cancel_left (List.append_cancel_right hd))

theorem forbiddenScan_safe_iff (u : String) (ws : List String) :
    (forbiddenScan u ws).sql_safe = some true ↔ ∀ w ∈ ws, reSearchWord w u = false := by
  induction ws with
  | nil => simp [forbiddenScan]
  | cons v ws ih =>
    by_cases h : reSearchWord v u
    · simp [forbiddenScan, h]
    · simp only [Bool.not_eq_true] at h
      simp [forbiddenScan, h, ih]

theorem forbiddenScan_block_iff (u w : String) (ws : List String) :
    ((forbiddenScan u ws).sql_safe = some false ∧
        (forbiddenScan u ws).error = some (forbiddenMessage w)) ↔
      ∃ l₁ l₂, ws = l₁ ++ w :: l₂ ∧ reSearchWord w u = true ∧
        ∀ w' ∈ l₁, reSearchWord w' u = false := by
  induction ws with
  | nil =>
    simp only [forbiddenScan]
    constructor
    · rintro ⟨h, -⟩; cases h
    · rintro ⟨l₁, l₂, heq, -, -⟩
      exact absurd heq.symm (by simp)
  | cons v ws ih =>
    by_cases h : reSearchWord v u
    · simp only [forbiddenScan, h, if_pos]
      constructor
      · rintro ⟨-, herr⟩
        have hvw : v = w := forbiddenMessage_inj (Option.some.inj herr)
        exact ⟨[], ws, by simp [hvw], by rw [← hvw]; exact h, by simp⟩
      · rintro ⟨l₁, l₂, heq, hw, hnone⟩
        cases l₁ with
        | nil =>
          simp only [List.nil_append, List.cons.injEq] at heq
          exact ⟨trivial, by simp [heq.1, forbiddenMessage]⟩
        | cons a l₁ =>
          simp only [List.cons_append, List.cons.injEq] at heq
          have : reSearchWord v u = false := heq.1 ▸ hnone a (by simp)
          rw [this] at h; cases h
    · simp only [Bool.not_eq_true] at h
      simp only [forbiddenScan, h, Bool.false_eq_true, if_neg, if_false]
      rw [ih]
      constructor
      · rintro ⟨l₁, l₂, heq, hw, hnone⟩
        refine ⟨v :: l₁, l₂, by simp [heq], hw, ?_⟩
        intro w' hw'
        rcases List.mem_cons.mp hw' with rfl | hmem
        · exact h
        · exact hnone w' hmem
      · rintro ⟨l₁, l₂, heq, hw, hnone⟩
        cases l₁ with
        | nil =>
          simp only [List.nil_append, List.cons.injEq] at heq
          rw [heq.1] at h; rw [h] at hw; cases hw
        | cons a l₁ =>
          simp only [List.cons_append, List.cons.injEq] at heq
          exact ⟨l₁, l₂, heq.2, hw, fun w' hw' => hnone w' (by simp [hw'])⟩

theorem forbidden_data_ne_nil : ∀ w ∈ forbidden, w.data ≠ [] := by decide

/-- C1: `check_security` blocks (returning `sql_safe = false` with the
error `Forbidden keyword '<KEYWORD>' detected.` for `<KEYWORD>` the first
match in the scan order DROP, DELETE, TRUNCATE, INSERT, UPDATE, ALTER)
exactly when the uppercased statement contains a forbidden keyword as a
standalone word token; otherwise — in particular when the keywords occur
only inside longer identifiers or literals — it returns `sql_safe = true`. -/
theorem c1_check_security_keyword_iff (stmt w : String) :
    ∃ u, check_security { sql_query := some stmt } = .ok u ∧
      ((u.sql_safe = some false ∧ u.error = some (forbiddenMessage w)) ↔
        FirstForbiddenToken (pyUpper stmt) w) ∧
      (u.sql_safe = some true ↔
        ∀ w' ∈ forbidden, ¬ ContainsWordToken w' (pyUpper stmt)) := by
  refine ⟨forbiddenScan (pyUpper stmt) forbidden, rfl, ?_, ?_⟩
  · rw [forbiddenScan_block_iff]
    unfold FirstForbiddenToken
    constructor
    · rintro ⟨l₁, l₂, heq, hw, hnone⟩
      have hwmem : w ∈ forbidden := heq ▸ List.mem_append_right l₁ (by simp)
      refine ⟨l₁, l₂, heq, (reSearchWord_iff w _ (forbidden_data_ne_nil w hwmem)).mp hw, ?_⟩
      intro w' hw' hcwt
      have hm : w' ∈ forbidden := heq ▸ List.mem_append_left _ hw'
      have := (reSearchWord_iff w' _ (forbidden_data_ne_nil w' hm)).mpr hcwt
      rw [hnone w' hw'] at this; cases this
    · rintro ⟨l₁, l₂, heq, hw, hnone⟩
      have hwmem : w ∈ forbidden := heq ▸ List.mem_append_right l₁ (by simp)
      refine ⟨l₁, l₂, heq, (reSearchWord_iff w _ (forbidden_data_ne_nil w hwmem)).mpr hw, ?_⟩
      intro w' hw'
      have hm : w' ∈ forbidden := heq ▸ List.mem_append_left _ hw'
      have hnot := hnone w' hw'
      rw [← reSearchWord_iff w' _ (forbidden_data_ne_nil w' hm)] at hnot
      exact Bool.not_eq_true _ ▸ (by simpa using hnot)
  · rw [forbiddenScan_safe_iff]
    constructor
    · intro hall w' hm hcwt
      have := (reSearchWord_iff w' _ (forbidden_data_ne_nil w' hm)).mpr hcwt
      rw [hall w' hm] at this; cases this
    · intro hall w' hm
      have hnot := hall w' hm
      rw [← reSearchWord_iff w' _ (forbidden_data_ne_nil w' hm)] at hnot
      simpa using hnot

/-! ## Claims C2, C7, C10: the routing and drafting interfaces -/

/-- C2: with the `error` and `retry_count` keys present, routing after
execution returns `retry` exactly when the error is non-empty and the
retry counter is below 3, and `summarize` exactly when the error is empty
or the counter has reached 3. -/
theorem c2_route_after_execute_iff (e : String) (rc : Nat) (q sch sq res : Option String)
    (safe : Option Bool) :
    (route_after_execute ⟨q, sch, sq, safe, res, some e, some rc⟩ = .ok "retry" ↔
      e ≠ "" ∧ rc < 3) ∧
    (route_after_execute ⟨q, sch, sq, safe, res, some e, some rc⟩ = .ok "summarize" ↔
      e = "" ∨ 3 ≤ rc) := by
  by_cases he : e = ""
  · subst he
    simp [route_after_execute]
  · by_cases hrc : rc < 3
    · simp [route_after_execute, he, hrc]
    · simp only [route_after_execute, if_pos (by exact he), if_neg hrc]
      constructor
      · simp [he, hrc]
      · simp [he, hrc, Nat.le_of_not_lt hrc]

/-- Counterexample to C7: on a state whose `error` key is entirely absent,
`route_after_execute` raises `KeyError` instead of returning `summarize`. -/
theorem c7_counterexample :
    route_after_execute ⟨some "q", none, none, none, none, none, some 0⟩ =
        .error (.keyError "error") ∧
      route_after_execute ⟨some "q", none, none, none, none, none, some 0⟩ ≠
        .ok "summarize" := by
  refine ⟨rfl, fun h => ?_⟩
  change (Except.error (PyErr.keyError "error") : Except PyErr String) =
    Except.ok "summarize" at h
  exact Except.noConfusion h

/-- C7 (amended): on every state lacking the `error` value,
`route_after_execute` raises `KeyError "error"`; when the `error` value is
present but empty it returns `summarize` without reading `retry_count`
(so even an absent `retry_count` does not crash that path). -/
theorem c7_route_error_amended (q sch sq res : Option String) (safe : Option Bool)
    (rc : Option Nat) :
    route_after_execute ⟨q, sch, sq, safe, res, none, rc⟩ = .error (.keyError "error") ∧
    route_after_execute ⟨q, sch, sq, safe, res, some "", rc⟩ = .ok "summarize" := by
  exact ⟨rfl, by simp [route_after_execute]⟩

/-- C10: `write_sql` treats an absent `retry_count` as 0 — it returns the
same update as on a state initialized with `retry_count = 0`, and that
update carries `retry_count = 1`. -/
theorem c10_write_sql_missing_retry_count (q sch err : String)
    (invoke : String → String) (sq res : Option String) (safe : Option Bool) :
    write_sql invoke ⟨some q, some sch, sq, safe, res, some err, none⟩ =
        write_sql invoke ⟨some q, some sch, sq, safe, res, some err, some 0⟩ ∧
      write_sql invoke ⟨some q, some sch, sq, safe, res, some err, none⟩ =
        .ok { sql_query := some (cleanModelSQL (invoke (writeSqlPrompt sch q err))),
              retry_count := some 1 } := by
  exact ⟨rfl, rfl⟩

/-! ## Lemmas: Python `str.replace(pat, "")` -/

theorem pyRemoveAux_fuel (pat : List Char) :
    ∀ (f : Nat) (s : List Char), s.length ≤ f → ∀ f', s.length ≤ f' →
      pyRemoveAux pat f s = pyRemoveAux pat f' s := by
  intro f
  induction f with
  | zero =>
    intro s hs f' hf'
    have : s = [] := List.eq_nil_of_length_eq_zero (Nat.le_zero.mp hs)
    subst this
    cases f' <;> rfl
  | succ f ih =>
    intro s hs f' hf'
    cases s with
    | nil => cases f' <;> rfl
    | cons c rest =>
      cases f' with
      | zero => simp at hf'
      | succ f2 =>
        have hlen : rest.length ≤ f := by simpa using hs
        have hlen2 : rest.length ≤ f2 := by simpa using hf'
        by_cases hb : (beginsWith pat (c :: rest) && !pat.isEmpty) = true
        · have hpat : 1 ≤ pat.length := by
            rcases pat with - | ⟨a, ps⟩
            · simp [List.isEmpty] at hb
            · simp
          simp only [pyRemoveAux, if_pos hb]
          apply ih
          · rw [List.length_drop]; simp; omega
          · rw [List.length_drop]; simp; omega
        · simp only [pyRemoveAux, if_neg hb]
          exact congrArg (c :: ·) (ih rest hlen f2 hlen2)

theorem remDel_cons_match (pat : List Char) (c : Char) (rest : List Char)
    (h : beginsWith pat (c :: rest) = true) (hne : pat ≠ []) :
    remDel pat (c :: rest) = remDel pat ((c :: rest).drop pat.length) := by
  have hcond : (beginsWith pat (c :: rest) && !pat.isEmpty) = true := by
    simp [h, List.isEmpty_iff, hne]
  have hpat : 1 ≤ pat.length := by
    rcases pat with - | ⟨a, ps⟩
    · exact absurd rfl hne
    · simp
  unfold remDel
  simp only [List.length_cons, pyRemoveAux, if_pos hcond]
  apply pyRemoveAux_fuel
  · rw [List.length_drop]; simp; omega
  · exact le_rfl

theorem remDel_cons_nomatch (pat : List Char) (c : Char) (rest : List Char)
    (h : beginsWith pat (c :: rest) = false) :
    remDel pat (c :: rest) = c :: remDel pat rest := by
  have hcond : (beginsWith pat (c :: rest) && !pat.isEmpty) = false := by simp [h]
  unfold remDel
  simp only [List.length_cons, pyRemoveAux, if_neg, hcond, Bool.false_eq_true,
    not_false_eq_true, if_false]

theorem leadTicks_le_iff (k : Nat) :
    ∀ s, k ≤ leadTicks s ↔ ∃ t, s = List.replicate k '`' ++ t := by
  induction k with
  | zero => intro s; simp
  | succ k ih =>
    intro s
    cases s with
    | nil =>
      constructor
      · intro h; simp [leadTicks] at h
      · rintro ⟨t, ht⟩; rw [List.replicate_succ] at ht; cases ht
    | cons c r =>
      by_cases hc : c = '`'
      · subst hc
        have hE : leadTicks ('`' :: r) = leadTicks r + 1 := by simp [leadTicks]
        rw [hE]
        constructor
        · intro h
          obtain ⟨t, ht⟩ := (ih r).mp (by omega)
          exact ⟨t, by simp [List.replicate_succ, ht]⟩
        · rintro ⟨t, ht⟩
          rw [List.replicate_succ, List.cons_append] at ht
          simp only [List.cons.injEq, true_and] at ht
          have := (ih r).mpr ⟨t, ht⟩
          omega
      · constructor
        · intro h; simp [leadTicks, hc] at h
        · rintro ⟨t, ht⟩
          rw [List.replicate_succ, List.cons_append] at ht
          simp only [List.cons.injEq] at ht
          exact absurd ht.1 hc

theorem beginsWith_fence_iff (s : List Char) :
    beginsWith fenceChars s = true ↔ 3 ≤ leadTicks s := by
  have hfc : fenceChars = List.replicate 3 '`' := by decide
  rw [beginsWith_iff, leadTicks_le_iff, hfc]

theorem remDel_fence_lead :
    ∀ (n : Nat) (s : List Char), s.length ≤ n → leadTicks s < 3 →
      leadTicks (remDel fenceChars s) ≤ leadTicks s := by
  intro n
  induction n with
  | zero =>
    intro s hs _
    have : s = [] := List.eq_nil_of_length_eq_zero (Nat.le_zero.mp hs)
    subst this
    simp [remDel, pyRemoveAux]
  | succ n ih =>
    intro s hs hlt
    cases s with
    | nil => simp [remDel, pyRemoveAux]
    | cons c rest =>
      by_cases hb : beginsWith fenceChars (c :: rest) = true
      · rw [beginsWith_fence_iff] at hb; omega
      · rw [remDel_cons_nomatch _ _ _ (by simpa using hb)]
        by_cases hc : c = '`'
        · subst hc
          have h1 : leadTicks ('`' :: rest) = leadTicks rest + 1 := by simp [leadTicks]
          have h2 : leadTicks rest < 3 := by omega
          have h3 := ih rest (by simpa using hs) h2
          have h4 : leadTicks ('`' :: remDel fenceChars rest) =
              leadTicks (remDel fenceChars rest) + 1 := by simp [leadTicks]
          omega
        · simp [leadTicks, hc]

theorem remDel_fence_no_fence :
    ∀ (n : Nat) (s : List Char), s.length ≤ n →
      hasSeg fenceChars (remDel fenceChars s) = false := by
  intro n
  induction n with
  | zero =>
    intro s hs
    have : s = [] := List.eq_nil_of_length_eq_zero (Nat.le_zero.mp hs)
    subst this
    rfl
  | succ n ih =>
    intro s hs
    cases s with
    | nil => rfl
    | cons c rest =>
      by_cases hb : beginsWith fenceChars (c :: rest) = true
      · rw [remDel_cons_match _ _ _ hb (by decide)]
        apply ih
        rw [List.length_drop]
        have hf3 : fenceChars.length = 3 := rfl
        rw [hf3]
        simp only [List.length_cons]
        have : rest.length ≤ n := by simpa using hs
        omega
      · rw [remDel_cons_nomatch _ _ _ (by simpa using hb)]
        have hR := ih rest (by simpa using hs)
        simp only [hasSeg, hR, Bool.or_false]
        rw [← Bool.not_eq_true, beginsWith_fence_iff]
        by_cases hc : c = '`'
        · subst hc
          have hlt : leadTicks ('`' :: rest) < 3 := by
            by_contra hge
            exact hb ((beginsWith_fence_iff _).mpr (by omega))
          have h1 : leadTicks ('`' :: rest) = leadTicks rest + 1 := by simp [leadTicks]
          have h2 : leadTicks rest < 3 := by omega
          have h3 := remDel_fence_lead rest.length rest le_rfl h2
          have h4 : leadTicks ('`' :: remDel fenceChars rest) =
              leadTicks (remDel fenceChars rest) + 1 := by simp [leadTicks]
          omega
        · simp [leadTicks, hc]

theorem hasSeg_iff (pat : List Char) :
    ∀ s, hasSeg pat s = true ↔ ∃ l r, s = l ++ pat ++ r := by
  intro s
  induction s with
  | nil =>
    simp only [hasSeg]
    constructor
    · intro h
      obtain ⟨t, ht⟩ := (beginsWith_iff _ _).1 h
      exact ⟨[], t, by simpa using ht⟩
    · rintro ⟨l, r, h⟩
      have hl := congrArg List.length h
      simp only [List.length_nil, List.length_append] at hl
      have hpat : pat = [] := List.eq_nil_of_length_eq_zero (by omega)
      apply (beginsWith_iff _ _).2
      exact ⟨[], by simp [hpat]⟩
  | cons c rest ih =>
    simp only [hasSeg, Bool.or_eq_true, ih, beginsWith_iff]
    constructor
    · rintro (⟨t, ht⟩ | ⟨l, r, h⟩)
      · exact ⟨[], t, by simpa using ht⟩
      · exact ⟨c :: l, r, by simp [h]⟩
    · rintro ⟨l, r, h⟩
      cases l with
      | nil => exact Or.inl ⟨r, by simpa using h⟩
      | cons a l =>
        simp only [List.cons_append, List.cons.injEq] at h
        exact Or.inr ⟨l, r, h.2⟩

theorem cleanModelSQL_no_fence (content : String) :
    hasSeg fenceChars (cleanModelSQL content).data = false :=
  remDel_fence_no_fence (pyRemove "```sql" (pyStrip content)).data.length _ le_rfl

/-! ## Claims C5, C6, C9, C4 -/

/-- Counterexample to C5: for the model output ```` ```\nSELECT 1\n``` ````
the returned statement is `"\nSELECT 1\n"`, which still has leading and
trailing whitespace (stripping it changes it), because the code strips
whitespace before removing the fence markers. -/
theorem c5_counterexample :
    cleanModelSQL "```\nSELECT 1\n```" = "\nSELECT 1\n" ∧
      pyStrip (cleanModelSQL "```\nSELECT 1\n```") ≠
        cleanModelSQL "```\nSELECT 1\n```" := by
  constructor
  · decide
  · decide

/-- C5 (amended): `write_sql` returns as `sql_query` the model output with
surrounding whitespace stripped first and all code-fence markers removed
afterwards — so the returned statement never contains a fence marker, but
may retain whitespace that the fences had been guarding — and returns
`retry_count` equal to the incoming count plus exactly 1. -/
theorem c5_write_sql_amended (content q sch err : String) (rc : Option Nat)
    (sq res : Option String) (safe : Option Bool) :
    write_sql (fun _ => content) ⟨some q, some sch, sq, safe, res, some err, rc⟩ =
        .ok { sql_query := some (cleanModelSQL content),
              retry_count := some (rc.getD 0 + 1) } ∧
      ¬ ∃ l r, (cleanModelSQL content).data = l ++ ("```").data ++ r := by
  refine ⟨rfl, ?_⟩
  intro hseg
  have hmem := (hasSeg_iff ("```").data (cleanModelSQL content).data).mpr hseg
  have hfc : ("```").data = fenceChars := rfl
  rw [hfc, cleanModelSQL_no_fence content] at hmem
  cases hmem

/-- C6: `execute_sql` meets the QueryExecutor contract on every outcome:
zero rows give the literal `No data found.` with an explicitly empty
error, rows give their textual rendering with an explicitly empty error,
and a failure gives a present-and-empty result with the failure
description as the error. -/
theorem c6_execute_sql_contract (o : ExecOutcome) (stmt : String)
    (q sch res err : Option String) (safe : Option Bool) (rc : Option Nat) :
    execute_sql (fun _ => o) ⟨q, sch, some stmt, safe, res, err, rc⟩ =
      .ok (execSpecUpdate o) := by
  cases o with
  | rows rs => cases rs <;> rfl
  | failure m => rfl

/-- C9: `fetch_schema` renders exactly one line per table of the form
`Table '<name>': <col1> (<type1>), ...`, and the empty string when the
store has no tables. -/
theorem c9_fetch_schema_format (tables : List TableInfo) (st st' : AgentState) :
    fetch_schema tables st = { schema := some (schemaSpec tables) } ∧
      fetch_schema [] st' = { schema := some "" } := by
  constructor
  · unfold fetch_schema schemaSpec String.join schemaString
    rw [List.foldl_map]
    rfl
  · rfl

theorem forbiddenMessage_ne_empty (w : String) : forbiddenMessage w ≠ "" := by
  intro h
  have hd := congrArg (fun s => s.data.length) h
  simp only [forbiddenMessage, String.data_append, List.length_append] at hd
  have h1 : ("Forbidden keyword '" : String).data.length = 19 := rfl
  have h2 : ("' detected." : String).data.length = 11 := rfl
  have h3 : ("" : String).data.length = 0 := rfl
  rw [h1, h2, h3] at hd
  omega

theorem forbiddenScan_error_iff_safe (u : String) (ws : List String) :
    (forbiddenScan u ws).error = some "" ↔ (forbiddenScan u ws).sql_safe = some true := by
  induction ws with
  | nil => simp [forbiddenScan]
  | cons v ws ih =>
    by_cases h : reSearchWord v u
    · simp only [forbiddenScan, h, if_pos]
      constructor
      · intro he
        exact absurd (Option.some.inj he) (forbiddenMessage_ne_empty v)
      · intro hs; cases hs
    · simp only [Bool.not_eq_true] at h
      simp only [forbiddenScan, h, Bool.false_eq_true, if_false]
      exact ih

/-- Counterexample to C4: `write_sql` and `summarize_result` do not write
the `error` field at all — their updates leave it absent even on a state
carrying a stale error — contradicting the claim that every non-failing
step explicitly sets `error` to the empty string. -/
theorem c4_counterexample :
    (summarize_result (fun _ => "All good.")
        ⟨some "q", some "s", some "SELECT 1", some true, some "[(1,)]",
          some "stale error", some 1⟩).error = none ∧
      ∃ u, write_sql (fun _ => "SELECT 1")
          ⟨some "q", some "s", none, none, none, some "stale error", some 1⟩ = .ok u ∧
        u.error = none := by
  exact ⟨rfl, _, rfl, rfl⟩

/-- C4 (amended): `check_security` and `execute_sql` do set `error`
explicitly in their returned updates — `check_security` returns an empty
error exactly when it returns `sql_safe = true` (regardless of any stale
error in the input state), and `execute_sql` returns an explicitly empty
error on every successful execution — but `write_sql` and
`summarize_result` return updates that do not contain the `error` field,
so a stale error survives those two steps in the merged state. -/
theorem c4_error_discipline_amended (stmt : String) (rs : List Row)
    (invoke : String → String) (q sch sq res err : Option String)
    (safe : Option Bool) (rc : Option Nat) (errS : String) :
    (∃ u, check_security ⟨q, sch, some stmt, safe, res, err, rc⟩ = .ok u ∧
        (u.error = some "" ↔ u.sql_safe = some true)) ∧
      (∃ u, execute_sql (fun _ => .rows rs) ⟨q, sch, some stmt, safe, res, err, rc⟩ =
          .ok u ∧ u.error = some "") ∧
      (∃ u, write_sql invoke ⟨q.orElse (fun _ => some "q0"), some "sch0", sq, safe, res,
          some errS, rc⟩ = .ok u ∧ u.error = none) ∧
      (summarize_result invoke ⟨q, sch, sq, safe, res, err, rc⟩).error = none := by
  refine ⟨⟨forbiddenScan (pyUpper stmt) forbidden, rfl,
    forbiddenScan_error_iff_safe (pyUpper stmt) forbidden⟩, ?_, ?_, rfl⟩
  · cases rs with
    | nil => exact ⟨_, rfl, rfl⟩
    | cons r rs => exact ⟨_, rfl, rfl⟩
  · cases q with
    | none => exact ⟨_, rfl, rfl⟩
    | some qv => exact ⟨_, rfl, rfl⟩

/-! ## Lemmas: single steps of the compiled workflow -/

theorem write_sql_eq (invoke : String → String) (st : AgentState) (q sch err : String)
    (hq : st.question = some q) (hsch : st.schema = some sch) (herr : st.error = some err) :
    write_sql invoke st =
      .ok { sql_query := some (cleanModelSQL (invoke (writeSqlPrompt sch q err))),
            retry_count := some (st.retry_count.getD 0 + 1) } := by
  unfold write_sql
  rw [hsch, hq, herr]

theorem check_security_eq (st : AgentState) (sq : String) (h : st.sql_query = some sq) :
    check_security st = .ok (forbiddenScan (pyUpper sq) forbidden) := by
  unfold check_security
  rw [h]

theorem execute_sql_eq (run : String → ExecOutcome) (st : AgentState) (sq : String)
    (h : st.sql_query = some sq) :
    execute_sql run st = .ok (execSpecUpdate (run sq)) := by
  have hred : execute_sql run st =
      (match run sq with
        | ExecOutcome.rows rs =>
          if rs.isEmpty then
            .ok { result := some "No data found.", error := some "" }
          else
            .ok { result := some (pyStrRows rs), error := some "" }
        | ExecOutcome.failure m => .ok { result := some "", error := some m }) := by
    unfold execute_sql
    rw [h]
  rw [hred]
  cases run sq with
  | rows rs => cases rs <;> rfl
  | failure m => rfl

theorem route_after_security_eq (st : AgentState) (b : Bool) (h : st.sql_safe = some b) :
    route_after_security st = .ok (if b then "execute" else "summarize") := by
  unfold route_after_security
  rw [h]

theorem route_after_execute_empty (st : AgentState) (h : st.error = some "") :
    route_after_execute st = .ok "summarize" := by
  unfold route_after_execute
  rw [h]
  simp

theorem route_after_execute_err (st : AgentState) (e : String) (rc : Nat)
    (he : st.error = some e) (hne : e ≠ "") (hrc : st.retry_count = some rc) :
    route_after_execute st = .ok (if rc < 3 then "retry" else "summarize") := by
  unfold route_after_execute
  rw [he, hrc]
  simp [hne]

theorem forbiddenScan_cases (u : String) (ws : List String) :
    forbiddenScan u ws = { sql_safe := some true, error := some "" } ∨
      ∃ m, forbiddenScan u ws = { sql_safe := some false, error := some m } := by
  induction ws with
  | nil => exact Or.inl rfl
  | cons v ws ih =>
    by_cases h : reSearchWord v u
    · exact Or.inr ⟨"Forbidden keyword '" ++ v ++ "' detected.", by simp [forbiddenScan, h]⟩
    · simp only [Bool.not_eq_true] at h
      simpa [forbiddenScan, h] using ih

theorem execSpecUpdate_rows (rs : List Row) :
    ∃ resStr, execSpecUpdate (.rows rs) = { result := some resStr, error := some "" } := by
  cases rs with
  | nil => exact ⟨"No data found.", rfl⟩
  | cons r rest => exact ⟨pyStrRows (r :: rest), rfl⟩

theorem runLoop_succ (env : Env) (f : Nat) (acc : RunAcc) (n : Node) :
    runLoop env (f + 1) acc n =
      match stepNode env acc n with
      | .error e => .error (.stepErr e)
      | .ok (acc2, some next) => runLoop env f acc2 next
      | .ok (acc2, none) => .ok acc2 := rfl

theorem countNode_append (n : Node) (l₁ l₂ : List (Node × AgentState)) :
    countNode n (l₁ ++ l₂) = countNode n l₁ + countNode n l₂ := by
  unfold countNode
  rw [List.filter_append, List.length_append]

theorem countNode_cons (n m : Node) (st : AgentState) (tr : List (Node × AgentState)) :
    countNode n ((m, st) :: tr) = (if m = n then 1 else 0) + countNode n tr := by
  unfold countNode
  by_cases h : m = n
  · simp [List.filter_cons, h]
    omega
  · simp [List.filter_cons, h]

theorem runLoop_step (env : Env) (f : Nat) (acc acc2 : RunAcc) (n n2 : Node)
    (h : stepNode env acc n = .ok (acc2, some n2)) :
    runLoop env (f + 1) acc n = runLoop env f acc2 n2 := by
  rw [runLoop_succ, h]

theorem runLoop_end (env : Env) (f : Nat) (acc acc2 : RunAcc) (n : Node)
    (h : stepNode env acc n = .ok (acc2, none)) :
    runLoop env (f + 1) acc n = .ok acc2 := by
  rw [runLoop_succ, h]

theorem stepWriterLit (env : Env) (tr : List (Node × AgentState)) (lc dc k : Nat)
    (q sch err : String) (osq : Option String) (osafe : Option Bool) (ores : Option String) :
    stepNode env ⟨⟨some q, some sch, osq, osafe, ores, some err, some k⟩, tr, lc, dc⟩
        .writer =
      .ok (⟨⟨some q, some sch,
              some (cleanModelSQL (env.llm lc (writeSqlPrompt sch q err))),
              osafe, ores, some err, some (k + 1)⟩,
            tr ++ [(.writer, ⟨some q, some sch,
              some (cleanModelSQL (env.llm lc (writeSqlPrompt sch q err))),
              osafe, ores, some err, some (k + 1)⟩)], lc + 1, dc⟩, some .guardian) := rfl

theorem stepGuardianSafe (env : Env) (tr : List (Node × AgentState)) (lc dc rc : Nat)
    (q sch err0 SQL : String) (osafe : Option Bool) (ores : Option String)
    (hscan : forbiddenScan (pyUpper SQL) forbidden =
      { sql_safe := some true, error := some "" }) :
    stepNode env ⟨⟨some q, some sch, some SQL, osafe, ores, some err0, some rc⟩, tr, lc, dc⟩
        .guardian =
      .ok (⟨⟨some q, some sch, some SQL, some true, ores, some "", some rc⟩,
            tr ++ [(.guardian,
              ⟨some q, some sch, some SQL, some true, ores, some "", some rc⟩)], lc, dc⟩,
           some .executor) := by
  have h1 : check_security
      (⟨some q, some sch, some SQL, osafe, ores, some err0, some rc⟩ : AgentState) =
      .ok { sql_safe := some true, error := some "" } := by
    rw [check_security_eq _ SQL rfl, hscan]
  simp only [stepNode, h1]
  rfl

theorem stepGuardianBlock (env : Env) (tr : List (Node × AgentState)) (lc dc rc : Nat)
    (q sch err0 SQL m : String) (osafe : Option Bool) (ores : Option String)
    (hscan : forbiddenScan (pyUpper SQL) forbidden =
      { sql_safe := some false, error := some m }) :
    stepNode env ⟨⟨some q, some sch, some SQL, osafe, ores, some err0, some rc⟩, tr, lc, dc⟩
        .guardian =
      .ok (⟨⟨some q, some sch, some SQL, some false, ores, some m, some rc⟩,
            tr ++ [(.guardian,
              ⟨some q, some sch, some SQL, some false, ores, some m, some rc⟩)], lc, dc⟩,
           some .summarizer) := by
  have h1 : check_security
      (⟨some q, some sch, some SQL, osafe, ores, some err0, some rc⟩ : AgentState) =
      .ok { sql_safe := some false, error := some m } := by
    rw [check_security_eq _ SQL rfl, hscan]
  simp only [stepNode, h1]
  rfl

theorem stepExecutorLit (env : Env) (tr : List (Node × AgentState)) (lc dc rc : Nat)
    (q sch err0 SQL rv ev r : String) (osafe : Option Bool) (ores : Option String)
    (o : ExecOutcome) (hdb : env.db dc SQL = o)
    (hspec : execSpecUpdate o = { result := some rv, error := some ev })
    (hroute : route_after_execute
      (⟨some q, some sch, some SQL, osafe, some rv, some ev, some rc⟩ : AgentState) =
        .ok r) :
    stepNode env ⟨⟨some q, some sch, some SQL, osafe, ores, some err0, some rc⟩, tr, lc, dc⟩
        .executor =
      .ok (⟨⟨some q, some sch, some SQL, osafe, some rv, some ev, some rc⟩,
            tr ++ [(.executor,
              ⟨some q, some sch, some SQL, osafe, some rv, some ev, some rc⟩)], lc, dc + 1⟩,
           some (if r = "retry" then .writer else .summarizer)) := by
  have h1 : execute_sql (env.db dc)
      (⟨some q, some sch, some SQL, osafe, ores, some err0, some rc⟩ : AgentState) =
      .ok { result := some rv, error := some ev } := by
    rw [execute_sql_eq (env.db dc) _ SQL rfl, hdb, hspec]
  simp only [stepNode, h1, applyUpdate, mergeField]
  rw [hroute]

theorem stepSummarizerLit (env : Env) (tr : List (Node × AgentState)) (lc dc rc : Nat)
    (q sch err0 : String) (osq : Option String) (osafe : Option Bool) (ores : Option String) :
    stepNode env ⟨⟨some q, some sch, osq, osafe, ores, some err0, some rc⟩, tr, lc, dc⟩
        .summarizer =
      .ok (⟨⟨some q, some sch, osq, osafe,
              some (env.llm lc (summaryPrompt q (osq.getD "") (ores.getD "N/A") err0)),
              some err0, some rc⟩,
            tr ++ [(.summarizer, ⟨some q, some sch, osq, osafe,
              some (env.llm lc (summaryPrompt q (osq.getD "") (ores.getD "N/A") err0)),
              some err0, some rc⟩)], lc + 1, dc⟩, none) := rfl

theorem countNode_nil (n : Node) : countNode n [] = 0 := rfl

theorem forbiddenScan_retry_none (u : String) (ws : List String) :
    (forbiddenScan u ws).retry_count = none := by
  induction ws with
  | nil => rfl
  | cons v ws ih =>
    by_cases h : reSearchWord v u
    · simp [forbiddenScan, h]
    · simp only [Bool.not_eq_true] at h
      simpa [forbiddenScan, h] using ih

theorem execSpecUpdate_retry_none (o : ExecOutcome) :
    (execSpecUpdate o).retry_count = none := by
  cases o with
  | rows rs => cases rs <;> rfl
  | failure m => rfl

/-- The central loop invariant: started at the `writer` node with
`retry_count = k ≤ 2`, `question`, `schema` and `error` present, and
enough fuel, the workflow reaches `END` with exactly one summarizer entry
appended, at most `3 - k` further drafts and executions, every executor
entry immediately after a safe guardian entry, and a non-decreasing retry
counter along the visited states. -/
theorem runFromWriter (env : Env) :
    ∀ fuel k, k ≤ 2 → 3 * (3 - k) + 1 ≤ fuel →
    ∀ (tr : List (Node × AgentState)) (lc dc : Nat) (q sch err : String)
      (osq : Option String) (osafe : Option Bool) (ores : Option String),
      ∃ acc' tail,
        runLoop env fuel
            ⟨⟨some q, some sch, osq, osafe, ores, some err, some k⟩, tr, lc, dc⟩
            Node.writer = .ok acc' ∧
        acc'.trace = tr ++ tail ∧
        countNode .summarizer tail = 1 ∧
        countNode .writer tail ≤ 3 - k ∧
        countNode .executor tail ≤ 3 - k ∧
        List.Chain' execAfterSafeGuard tail ∧
        (∃ e, tail.head? = some e ∧ e.1 = Node.writer) ∧
        List.Chain' (· ≤ ·)
          (((⟨some q, some sch, osq, osafe, ores, some err, some k⟩ : AgentState) ::
            tail.map Prod.snd).map rcOf) := by
  intro fuel
  induction fuel using Nat.strong_induction_on with
  | _ fuel IH =>
  intro k hk hfuel tr lc dc q sch err osq osafe ores
  obtain ⟨f, rfl⟩ : ∃ f, fuel = f + 4 := ⟨fuel - 4, by omega⟩
  rw [show f + 4 = (f + 3) + 1 from rfl,
    runLoop_step env (f + 3) _ _ _ _ (stepWriterLit env tr lc dc k q sch err osq osafe ores)]
  generalize hSQL : cleanModelSQL (env.llm lc (writeSqlPrompt sch q err)) = SQL
  rcases forbiddenScan_cases (pyUpper SQL) forbidden with hscan | ⟨m, hscan⟩
  · -- the guardian lets the statement through
    rw [show f + 3 = (f + 2) + 1 from rfl,
      runLoop_step env (f + 2) _ _ _ _
        (stepGuardianSafe env _ (lc + 1) dc (k + 1) q sch err SQL osafe ores hscan)]
    cases hdb : env.db dc SQL with
    | rows rs =>
      -- execution succeeds: error cleared, go to the summarizer
      obtain ⟨rv, hspec⟩ := execSpecUpdate_rows rs
      have hroute : route_after_execute
          (⟨some q, some sch, some SQL, some true, some rv, some "", some (k + 1)⟩ :
            AgentState) = .ok "summarize" := route_after_execute_empty _ rfl
      rw [show f + 2 = (f + 1) + 1 from rfl,
        runLoop_step env (f + 1) _ _ _ _
          (stepExecutorLit env _ (lc + 1) dc (k + 1) q sch "" SQL rv "" "summarize"
            (some true) ores (.rows rs) hdb hspec hroute)]
      rw [show (if ("summarize" : String) = "retry" then Node.writer else Node.summarizer) =
        Node.summarizer from rfl]
      rw [runLoop_end env f _ _ _
        (stepSummarizerLit env _ (lc + 1) (dc + 1) (k + 1) q sch "" (some SQL)
          (some true) (some rv))]
      refine ⟨_,
        [(.writer, ⟨some q, some sch, some SQL, osafe, ores, some err, some (k + 1)⟩),
         (.guardian, ⟨some q, some sch, some SQL, some true, ores, some "", some (k + 1)⟩),
         (.executor, ⟨some q, some sch, some SQL, some true, some rv, some "", some (k + 1)⟩),
         (.summarizer, ⟨some q, some sch, some SQL, some true,
           some (env.llm (lc + 1)
             (summaryPrompt q ((some SQL).getD "") ((some rv).getD "N/A") "")),
           some "", some (k + 1)⟩)],
        rfl, ?_, ?_, ?_, ?_, ?_, ?_, ?_⟩
      · simp
      · simp [countNode_cons, countNode_nil]
      · simp [countNode_cons, countNode_nil]; omega
      · simp [countNode_cons, countNode_nil]; omega
      · simp [List.chain'_cons, execAfterSafeGuard]
      · exact ⟨_, rfl, rfl⟩
      · simp [List.chain'_cons, rcOf]
    | failure m =>
      have hspec : execSpecUpdate (.failure m) =
        { result := some "", error := some m } := rfl
      by_cases hm : m = ""
      · subst hm
        have hroute : route_after_execute
            (⟨some q, some sch, some SQL, some true, some "", some "", some (k + 1)⟩ :
              AgentState) = .ok "summarize" := route_after_execute_empty _ rfl
        rw [show f + 2 = (f + 1) + 1 from rfl,
          runLoop_step env (f + 1) _ _ _ _
            (stepExecutorLit env _ (lc + 1) dc (k + 1) q sch "" SQL "" "" "summarize"
              (some true) ores (.failure "") hdb hspec hroute)]
        rw [show (if ("summarize" : String) = "retry" then Node.writer else Node.summarizer) =
          Node.summarizer from rfl]
        rw [runLoop_end env f _ _ _
          (stepSummarizerLit env _ (lc + 1) (dc + 1) (k + 1) q sch "" (some SQL)
            (some true) (some ""))]
        refine ⟨_,
          [(.writer, ⟨some q, some sch, some SQL, osafe, ores, some err, some (k + 1)⟩),
           (.guardian, ⟨some q, some sch, some SQL, some true, ores, some "", some (k + 1)⟩),
           (.executor, ⟨some q, some sch, some SQL, some true, some "", some "", some (k + 1)⟩),
           (.summarizer, ⟨some q, some sch, some SQL, some true,
             some (env.llm (lc + 1)
               (summaryPrompt q ((some SQL).getD "") ((some ("" : String)).getD "N/A") "")),
             some "", some (k + 1)⟩)],
          rfl, ?_, ?_, ?_, ?_, ?_, ?_, ?_⟩
        · simp
        · simp [countNode_cons, countNode_nil]
        · simp [countNode_cons, countNode_nil]; omega
        · simp [countNode_cons, countNode_nil]; omega
        · simp [List.chain'_cons, execAfterSafeGuard]
        · exact ⟨_, rfl, rfl⟩
        · simp [List.chain'_cons, rcOf]
      · have hroute0 := route_after_execute_err
          (⟨some q, some sch, some SQL, some true, some "", some m, some (k + 1)⟩ :
            AgentState) m (k + 1) rfl hm rfl
        by_cases hret : k + 1 < 3
        · -- a retry: loop back to the writer with the incremented counter
          rw [if_pos hret] at hroute0
          rw [show f + 2 = (f + 1) + 1 from rfl,
            runLoop_step env (f + 1) _ _ _ _
              (stepExecutorLit env _ (lc + 1) dc (k + 1) q sch "" SQL "" m "retry"
                (some true) ores (.failure m) hdb hspec hroute0)]
          rw [show (if ("retry" : String) = "retry" then Node.writer else Node.summarizer) =
            Node.writer from rfl]
          obtain ⟨acc', tail', hrun, htr, hsum, hwc, hec, hch, hhd, hrc⟩ :=
            IH (f + 1) (by omega) (k + 1) (by omega) (by omega)
              (((tr ++
                  [(.writer, ⟨some q, some sch, some SQL, osafe, ores, some err, some (k + 1)⟩)]) ++
                  [(.guardian, ⟨some q, some sch, some SQL, some true, ores, some "", some (k + 1)⟩)]) ++
                  [(.executor, ⟨some q, some sch, some SQL, some true, some "", some m, some (k + 1)⟩)])
              (lc + 1) (dc + 1) q sch m (some SQL) (some true) (some "")
          rw [hrun]
          refine ⟨acc',
            [(.writer, ⟨some q, some sch, some SQL, osafe, ores, some err, some (k + 1)⟩),
             (.guardian, ⟨some q, some sch, some SQL, some true, ores, some "", some (k + 1)⟩),
             (.executor, ⟨some q, some sch, some SQL, some true, some "", some m, some (k + 1)⟩)] ++
              tail',
            rfl, ?_, ?_, ?_, ?_, ?_, ?_, ?_⟩
          · rw [htr]; simp
          · rw [countNode_append]
            simp [countNode_cons, countNode_nil, hsum]
          · rw [countNode_append]
            simp only [countNode_cons, countNode_nil]
            simp
            omega
          · rw [countNode_append]
            simp only [countNode_cons, countNode_nil]
            simp
            omega
          · rw [List.chain'_append]
            refine ⟨by simp [List.chain'_cons, execAfterSafeGuard], hch, ?_⟩
            intro x hx y hy
            obtain ⟨e0, he0, hw0⟩ := hhd
            rw [he0] at hy
            simp only [Option.mem_def, Option.some.injEq] at hy
            intro hyexec
            rw [← hy] at hyexec
            exact Node.noConfusion (hw0.symm.trans hyexec)
          · exact ⟨_, rfl, rfl⟩
          · simp only [List.map_cons, List.map_append, List.cons_append, List.nil_append,
              List.map_nil] at hrc ⊢
            rw [List.chain'_cons, List.chain'_cons, List.chain'_cons]
            refine ⟨?_, ?_, ?_, hrc⟩ <;> simp [rcOf]
        · -- retries exhausted: summarize with the error in place
          rw [if_neg hret] at hroute0
          rw [show f + 2 = (f + 1) + 1 from rfl,
            runLoop_step env (f + 1) _ _ _ _
              (stepExecutorLit env _ (lc + 1) dc (k + 1) q sch "" SQL "" m "summarize"
                (some true) ores (.failure m) hdb hspec hroute0)]
          rw [show (if ("summarize" : String) = "retry" then Node.writer else Node.summarizer) =
            Node.summarizer from rfl]
          rw [runLoop_end env f _ _ _
            (stepSummarizerLit env _ (lc + 1) (dc + 1) (k + 1) q sch m (some SQL)
              (some true) (some ""))]
          refine ⟨_,
            [(.writer, ⟨some q, some sch, some SQL, osafe, ores, some err, some (k + 1)⟩),
             (.guardian, ⟨some q, some sch, some SQL, some true, ores, some "", some (k + 1)⟩),
             (.executor, ⟨some q, some sch, some SQL, some true, some "", some m, some (k + 1)⟩),
             (.summarizer, ⟨some q, some sch, some SQL, some true,
               some (env.llm (lc + 1)
                 (summaryPrompt q ((some SQL).getD "") ((some ("" : String)).getD "N/A") m)),
               some m, some (k + 1)⟩)],
            rfl, ?_, ?_, ?_, ?_, ?_, ?_, ?_⟩
          · simp
          · simp [countNode_cons, countNode_nil]
          · simp [countNode_cons, countNode_nil]; omega
          · simp [countNode_cons, countNode_nil]; omega
          · simp [List.chain'_cons, execAfterSafeGuard]
          · exact ⟨_, rfl, rfl⟩
          · simp [List.chain'_cons, rcOf]
  · -- the guardian blocks the statement: straight to the summarizer
    rw [show f + 3 = (f + 2) + 1 from rfl,
      runLoop_step env (f + 2) _ _ _ _
        (stepGuardianBlock env _ (lc + 1) dc (k + 1) q sch err SQL m osafe ores hscan)]
    rw [show f + 2 = (f + 1) + 1 from rfl,
      runLoop_end env (f + 1) _ _ _
        (stepSummarizerLit env _ (lc + 1) dc (k + 1) q sch m (some SQL) (some false) ores)]
    refine ⟨_,
      [(.writer, ⟨some q, some sch, some SQL, osafe, ores, some err, some (k + 1)⟩),
       (.guardian, ⟨some q, some sch, some SQL, some false, ores, some m, some (k + 1)⟩),
       (.summarizer, ⟨some q, some sch, some SQL, some false,
         some (env.llm (lc + 1) (summaryPrompt q ((some SQL).getD "") (ores.getD "N/A") m)),
         some m, some (k + 1)⟩)],
      rfl, ?_, ?_, ?_, ?_, ?_, ?_, ?_⟩
    · simp
    · simp [countNode_cons, countNode_nil]
    · simp [countNode_cons, countNode_nil]
      omega
    · simp [countNode_cons, countNode_nil]
    · simp [List.chain'_cons, execAfterSafeGuard]
    · exact ⟨_, rfl, rfl⟩
    · simp [List.chain'_cons, rcOf]

/-! ## Claims C3 and C8: whole-run properties -/

theorem stepFetchLit (env : Env) (question : String) :
    stepNode env ⟨⟨some question, none, none, none, none, some "", some 0⟩, [], 0, 0⟩
        .fetch_schema =
      .ok (⟨⟨some question, some (schemaString env.tables), none, none, none,
              some "", some 0⟩,
            [(.fetch_schema, ⟨some question, some (schemaString env.tables), none, none,
              none, some "", some 0⟩)], 0, 0⟩, some .writer) := rfl

/-- C3: every run of the compiled workflow from the initial state reaches
the terminal state with no exception and within the recursion limit; the
summarizer runs exactly once, at most 3 drafts and at most 3 executions
occur, the executor is entered only immediately after a guardian step
whose merged state has `sql_safe = true`, and the run does not start at
the executor. -/
theorem c3_workflow_terminates (env : Env) (question : String) :
    ∃ acc, runWorkflow env question = .ok acc ∧
      countNode .summarizer acc.trace = 1 ∧
      countNode .writer acc.trace ≤ 3 ∧
      countNode .executor acc.trace ≤ 3 ∧
      List.Chain' execAfterSafeGuard acc.trace ∧
      (∀ e ∈ acc.trace.head?, e.1 ≠ Node.executor) := by
  unfold runWorkflow initState
  rw [show (25 : Nat) = 24 + 1 from rfl,
    runLoop_step env 24 _ _ _ _ (stepFetchLit env question)]
  obtain ⟨acc', tail, hrun, htr, hsum, hwc, hec, hch, hhd, -⟩ :=
    runFromWriter env 24 0 (by omega) (by omega)
      [(.fetch_schema, ⟨some question, some (schemaString env.tables), none, none, none,
        some "", some 0⟩)] 0 0 question (schemaString env.tables) "" none none none
  rw [hrun]
  refine ⟨acc', rfl, ?_, ?_, ?_, ?_, ?_⟩
  · rw [htr, countNode_append]
    simpa [countNode_cons, countNode_nil] using hsum
  · rw [htr, countNode_append]
    simp only [countNode_cons, countNode_nil]
    simp
    omega
  · rw [htr, countNode_append]
    simp only [countNode_cons, countNode_nil]
    simp
    omega
  · rw [htr, List.chain'_append]
    refine ⟨by simp, hch, ?_⟩
    intro x hx y hy
    obtain ⟨e0, he0, hw0⟩ := hhd
    rw [he0] at hy
    simp only [Option.mem_def, Option.some.injEq] at hy
    intro hyexec
    rw [← hy] at hyexec
    exact Node.noConfusion (hw0.symm.trans hyexec)
  · rw [htr]
    intro e he
    simp only [List.cons_append, List.head?_cons, Option.mem_def, Option.some.injEq] at he
    rw [← he]
    intro hc
    exact Node.noConfusion hc

/-- C8: within one run `retry_count` is non-decreasing along the sequence
of merged states starting from the initial state; at update level, only
`write_sql` writes `retry_count` (as the incoming value plus one, never a
reset), while `fetch_schema`, `check_security`, `execute_sql` and
`summarize_result` return updates that do not contain `retry_count`. -/
theorem c8_retry_count_monotone (env : Env) (question : String)
    (tables : List TableInfo) (invoke : String → String) (st : AgentState)
    (stmt q0 sch0 err0 : String) (o : ExecOutcome) (sq res err : Option String)
    (safe : Option Bool) (rc rc2 : Option Nat) (oq osch : Option String) :
    (∃ acc, runWorkflow env question = .ok acc ∧
      List.Chain' (· ≤ ·) ((initState question :: acc.trace.map Prod.snd).map rcOf)) ∧
    (fetch_schema tables st).retry_count = none ∧
    (∃ u, check_security ⟨oq, osch, some stmt, safe, res, err, rc2⟩ = .ok u ∧
      u.retry_count = none) ∧
    (∃ u, execute_sql (fun _ => o) ⟨oq, osch, some stmt, safe, res, err, rc2⟩ = .ok u ∧
      u.retry_count = none) ∧
    (summarize_result invoke st).retry_count = none ∧
    (∃ u, write_sql invoke ⟨some q0, some sch0, sq, safe, res, some err0, rc⟩ = .ok u ∧
      u.retry_count = some (rc.getD 0 + 1)) := by
  refine ⟨?_, rfl, ?_, ?_, rfl, ⟨_, rfl, rfl⟩⟩
  · unfold runWorkflow initState
    rw [show (25 : Nat) = 24 + 1 from rfl,
      runLoop_step env 24 _ _ _ _ (stepFetchLit env question)]
    obtain ⟨acc', tail, hrun, htr, -, -, -, -, -, hrc⟩ :=
      runFromWriter env 24 0 (by omega) (by omega)
        [(.fetch_schema, ⟨some question, some (schemaString env.tables), none, none, none,
          some "", some 0⟩)] 0 0 question (schemaString env.tables) "" none none none
    rw [hrun]
    refine ⟨acc', rfl, ?_⟩
    rw [htr]
    simp only [List.map_cons, List.map_append, List.cons_append, List.nil_append,
      List.map_nil] at hrc ⊢
    rw [List.chain'_cons]
    exact ⟨by simp [rcOf], hrc⟩
  · exact ⟨_, check_security_eq _ stmt rfl, forbiddenScan_retry_none _ _⟩
  · exact ⟨_, execute_sql_eq _ _ stmt rfl, execSpecUpdate_retry_none o⟩

end NLSQL
